import Mathlib

/-!
Shallow embedding of the High-Performance-Trade-Simulator core in Lean 4.

Prices, quantities and model coefficients are embedded as exact rationals
(`ℚ`); the Python floats of the source are treated as exact real arithmetic.
Python runtime failures (`TypeError` from arithmetic on `None`,
`ZeroDivisionError` from division by zero) are modeled with `Except PyError`.

Sources embedded:
 * `src/utils/orderbook.py`    — class `OrderBook`
 * `src/models/market_impact.py` — class `MarketImpactModel`
 * `src/models/maker_taker.py` — class `MakerTakerModel`
 * `src/models/slippage.py`    — class `SlippageModel` (deterministic baseline)
 * `src/ws/okx_ws.py`          — class `OKXWebsocket` (event-level model)
-/

namespace TradeSim

/- Batteries marks the rational-number operations `@[irreducible]`, which
blocks `decide`-style evaluation of the embedded code; restore the default
reducibility for this development. -/
attribute [local semireducible] Rat.add Rat.mul Rat.sub Rat.inv

/-- Python runtime errors that the embedded code can raise. -/
inductive PyError
  | typeError
  | zeroDivisionError
deriving Repr, DecidableEq

instance {e a : Type} [DecidableEq e] [DecidableEq a] : DecidableEq (Except e a) :=
  fun x y =>
    match x, y with
    | .ok u, .ok v =>
      if h : u = v then isTrue (by rw [h]) else isFalse fun hh => h (Except.ok.inj hh)
    | .error u, .error v =>
      if h : u = v then isTrue (by rw [h]) else isFalse fun hh => h (Except.error.inj hh)
    | .ok _, .error _ => isFalse fun hh => Except.noConfusion hh
    | .error _, .ok _ => isFalse fun hh => Except.noConfusion hh

/-- Python `a / b`: raises `ZeroDivisionError` when `b == 0` (floats included). -/
def pyDiv (a b : ℚ) : Except PyError ℚ :=
  if b = 0 then .error .zeroDivisionError else .ok (a / b)

/-- Using Python's `None` as a number raises `TypeError`. -/
def reqNum (x : Option ℚ) : Except PyError ℚ :=
  match x with
  | some v => .ok v
  | none => .error .typeError

/-! ## OrderBook (src/utils/orderbook.py)

The Python `dict` `{price: quantity}` is embedded as an insertion-ordered
association list with unique keys; `dict[price] = qty` replaces in place or
appends, `dict.pop(price, None)` removes the key if present. -/

/-- Python `d[price] = qty` on a dict, as an association list. -/
def dictSet (d : List (ℚ × ℚ)) (price qty : ℚ) : List (ℚ × ℚ) :=
  if d.any (fun e => e.1 = price) then
    d.map (fun e => if e.1 = price then (price, qty) else e)
  else
    d ++ [(price, qty)]

/-- Python `d.pop(price, None)` on a dict. -/
def dictPop (d : List (ℚ × ℚ)) (price : ℚ) : List (ℚ × ℚ) :=
  d.filter (fun e => e.1 ≠ price)

/-- One `[price, quantity]` delta, per the delta semantics of `OrderBook.update`:
`quantity > 0` sets the level, any other quantity removes it. -/
def applyDelta (d : List (ℚ × ℚ)) (delta : ℚ × ℚ) : List (ℚ × ℚ) :=
  if delta.2 > 0 then dictSet d delta.1 delta.2 else dictPop d delta.1

/-- Ordering by price, ascending: used for `sorted(self.ask_dict.items())`.
Python sorts the `(price, qty)` tuples lexicographically; since dict keys are
unique the result is determined by the price alone. -/
def askLe (a b : ℚ × ℚ) : Prop := a.1 ≤ b.1

/-- Ordering by price, descending: `sorted(self.bid_dict.items(), reverse=True)`. -/
def bidGe (a b : ℚ × ℚ) : Prop := b.1 ≤ a.1

instance : DecidableRel askLe := fun a b => inferInstanceAs (Decidable (a.1 ≤ b.1))

instance : DecidableRel bidGe := fun a b => inferInstanceAs (Decidable (b.1 ≤ a.1))

instance : IsTotal (ℚ × ℚ) askLe := ⟨fun a b => le_total a.1 b.1⟩

instance : IsTrans (ℚ × ℚ) askLe := ⟨fun _ _ _ h h' => le_trans h h'⟩

instance : IsTotal (ℚ × ℚ) bidGe := ⟨fun a b => le_total b.1 a.1⟩

instance : IsTrans (ℚ × ℚ) bidGe := ⟨fun _ _ _ h h' => le_trans h' h⟩

/-- Embeds `OrderBook._rebuild_arrays`, ask side: sort ascending, truncate to depth. -/
def rebuildAsks (d : List (ℚ × ℚ)) (maxDepth : ℕ) : List (ℚ × ℚ) :=
  (List.insertionSort askLe d).take maxDepth

/-- Embeds `OrderBook._rebuild_arrays`, bid side: sort descending, truncate to depth. -/
def rebuildBids (d : List (ℚ × ℚ)) (maxDepth : ℕ) : List (ℚ × ℚ) :=
  (List.insertionSort bidGe d).take maxDepth

/-- The state of `OrderBook` (src/utils/orderbook.py). -/
structure OrderBook where
  symbol : String
  maxDepth : ℕ
  askDict : List (ℚ × ℚ)
  bidDict : List (ℚ × ℚ)
  asks : List (ℚ × ℚ)
  bids : List (ℚ × ℚ)
  timestamp : ℚ
  updateCount : ℕ
  midPriceHistory : List ℚ
  spreadHistory : List ℚ
  depthHistory : List (ℚ × ℚ)
deriving Repr, DecidableEq

/-- Embeds `OrderBook.__init__(symbol, max_depth=100)`; the default depth 100 is
passed explicitly at use sites. -/
def OrderBook.init (symbol : String) (maxDepth : ℕ) : OrderBook :=
  { symbol := symbol
    maxDepth := maxDepth
    askDict := []
    bidDict := []
    asks := []
    bids := []
    timestamp := 0
    updateCount := 0
    midPriceHistory := []
    spreadHistory := []
    depthHistory := [] }

/-- Embeds `OrderBook._update_statistics`. Returns early when either side is empty
(Python list truthiness). When the mid price is zero, the Python code raises
`ZeroDivisionError` at the spread computation; the book state observable after
that exception (arrays updated, no statistics appended) is what is returned
here. -/
def OrderBook.updateStatistics (ob : OrderBook) : OrderBook :=
  match ob.asks.head?, ob.bids.head? with
  | some (bestAsk, _), some (bestBid, _) =>
    let mid := (bestAsk + bestBid) / 2
    if mid = 0 then ob
    else
      let spreadBps := (bestAsk - bestBid) / mid * 10000
      let range := mid * (1 / 100)
      let askDepth := ((ob.asks.filter fun e => e.1 ≤ mid + range).map Prod.snd).sum
      let bidDepth := ((ob.bids.filter fun e => mid - range ≤ e.1).map Prod.snd).sum
      let mh := ob.midPriceHistory ++ [mid]
      let sh := ob.spreadHistory ++ [spreadBps]
      let dh := ob.depthHistory ++ [(askDepth, bidDepth)]
      if mh.length > 1000 then
        { ob with
          midPriceHistory := mh.drop (mh.length - 1000)
          spreadHistory := sh.drop (sh.length - 1000)
          depthHistory := dh.drop (dh.length - 1000) }
      else
        { ob with midPriceHistory := mh, spreadHistory := sh, depthHistory := dh }
  | _, _ => ob

/-- Embeds `OrderBook.update(asks, bids, timestamp)`: apply deltas to both side dicts,
rebuild the sorted truncated arrays, then update statistics. -/
def OrderBook.update (ob : OrderBook) (asks bids : List (ℚ × ℚ)) (timestamp : ℚ) :
    OrderBook :=
  let askDict := asks.foldl applyDelta ob.askDict
  let bidDict := bids.foldl applyDelta ob.bidDict
  OrderBook.updateStatistics
    { ob with
      timestamp := timestamp
      updateCount := ob.updateCount + 1
      askDict := askDict
      bidDict := bidDict
      asks := rebuildAsks askDict ob.maxDepth
      bids := rebuildBids bidDict ob.maxDepth }

/-- A sequence of `update(asks, bids, timestamp)` calls applied in order. -/
def OrderBook.applyUpdates (ob : OrderBook)
    (msgs : List (List (ℚ × ℚ) × List (ℚ × ℚ) × ℚ)) : OrderBook :=
  msgs.foldl (fun b m => b.update m.1 m.2.1 m.2.2) ob

/-- Embeds `OrderBook.get_best_ask`: `(price, quantity)` or `(None, None)`. -/
def OrderBook.getBestAsk (ob : OrderBook) : Option (ℚ × ℚ) := ob.asks.head?

/-- Embeds `OrderBook.get_best_bid`: `(price, quantity)` or `(None, None)`. -/
def OrderBook.getBestBid (ob : OrderBook) : Option (ℚ × ℚ) := ob.bids.head?

/-- Embeds `OrderBook.get_mid_price`: availability is decided by Python truthiness of
`best_ask_price and best_bid_price` — `None` or a zero price both yield `None`. -/
def OrderBook.getMidPrice (ob : OrderBook) : Option ℚ :=
  match ob.getBestAsk, ob.getBestBid with
  | some (ap, _), some (bp, _) =>
    if ap ≠ 0 ∧ bp ≠ 0 then some ((ap + bp) / 2) else none
  | _, _ => none

/-- Embeds `OrderBook.get_spread`: same truthiness guard as `get_mid_price`; when both
best prices are truthy but their mid is zero, the division raises. -/
def OrderBook.getSpread (ob : OrderBook) : Except PyError (Option ℚ) :=
  match ob.getBestAsk, ob.getBestBid with
  | some (ap, _), some (bp, _) =>
    if ap ≠ 0 ∧ bp ≠ 0 then
      let mid := (ap + bp) / 2
      if mid = 0 then .error .zeroDivisionError
      else .ok (some ((ap - bp) / mid * 10000))
    else .ok none
  | _, _ => .ok none

/-- Order side; the Python code compares the lowercased string to `'buy'`. -/
inductive Side
  | buy
  | sell
deriving Repr, DecidableEq

/-- The side of the book a market order walks: asks for a buy, bids for a
sell. -/
def sideLevels (ob : OrderBook) (side : Side) : List (ℚ × ℚ) :=
  match side with | .buy => ob.asks | .sell => ob.bids

/-- The level-consuming loop of `OrderBook.calculate_market_impact`: returns
`(total_cost, executed_qty)`. -/
def walkBook (levels : List (ℚ × ℚ)) (remaining totalCost executed : ℚ) : ℚ × ℚ :=
  match levels with
  | [] => (totalCost, executed)
  | (price, levelQty) :: rest =>
    if remaining ≤ 0 then (totalCost, executed)
    else
      let e := min remaining levelQty
      walkBook rest (remaining - e) (totalCost + e * price) (executed + e)

/-- Embeds `OrderBook.calculate_market_impact(side, quantity)`: returns
`(average_price, price_impact_bps, executed_quantity)`. The sell branch
divides by the average price, which raises `ZeroDivisionError` when that
average is zero. -/
def OrderBook.calculateMarketImpact (ob : OrderBook) (side : Side) (quantity : ℚ) :
    Except PyError (Option ℚ × ℚ × ℚ) :=
  let levels := sideLevels ob side
  let walked := walkBook levels quantity 0 0
  let totalCost := walked.1
  let executedQty := walked.2
  if 0 < executedQty then
    let avgPrice := totalCost / executedQty
    match ob.getMidPrice with
    | some mid =>
      if mid ≠ 0 then
        match side with
        | .buy => .ok (some avgPrice, (avgPrice / mid - 1) * 10000, executedQty)
        | .sell =>
          if avgPrice = 0 then .error .zeroDivisionError
          else .ok (some avgPrice, (mid / avgPrice - 1) * 10000, executedQty)
      else .ok (some avgPrice, 0, executedQty)
    | none => .ok (some avgPrice, 0, executedQty)
  else
    .ok (none, 0, 0)

/-- Sum of the quantities on a list of levels. -/
def totalQty (levels : List (ℚ × ℚ)) : ℚ := (levels.map Prod.snd).sum

/-- Sum of ask quantities strictly below a price bound, e.g.
`sum(float(size) for _, size in orderbook.asks if float(_) < bound)`. -/
def sumQtyBelow (levels : List (ℚ × ℚ)) (bound : ℚ) : ℚ :=
  ((levels.filter fun e => e.1 < bound).map Prod.snd).sum

/-! ## MarketImpactModel (src/models/market_impact.py)

The model object carries exponents `alpha = beta = 1.0` and
`risk_aversion = 0.01`; `temp_impact_eta` and `perm_impact_gamma` are
recalibrated from the book on every `calculate_impact` call, so the embedding
passes `eta` and `gamma` explicitly. -/

/-- Embeds `MarketImpactModel._temporary_impact(volume)` = `eta * volume ** 1.0`. -/
def tempImpact (eta volume : ℚ) : ℚ := eta * volume ^ (1 : ℕ)

/-- Embeds `MarketImpactModel._permanent_impact(volume)` = `gamma * volume ** 1.0`. -/
def permImpact (gamma volume : ℚ) : ℚ := gamma * volume ^ (1 : ℕ)

/-- Embeds `MarketImpactModel._adjust_params_from_orderbook(orderbook, quantity)`:
returns the recalibrated `(eta, gamma)`. Arithmetic on an unavailable mid
price or spread raises `TypeError`; a zero mid raises `ZeroDivisionError`
inside `get_spread` or at the `spread_ratio` division. -/
def adjustParams (ob : OrderBook) (quantity : ℚ) : Except PyError (ℚ × ℚ) := do
  let mid ← reqNum ob.getMidPrice
  let depth := sumQtyBelow ob.asks (mid * (1005 / 1000))
  let relativeSize := if depth > 0 then quantity / depth else 1
  let eta := max (1 / 100) (min (1 / 10) (5 / 100 * (1 + 2 * relativeSize)))
  let spread ← ob.getSpread >>= reqNum
  let spreadOverMid ← pyDiv spread mid
  let gamma := max (1 / 100) (min (1 / 10) (5 / 100 * (1 + 10 * spreadOverMid)))
  .ok (eta, gamma)

/-- Python `int(q)` for the (always positive) normalized quantity. -/
def ratFloorNat (q : ℚ) : ℕ := (q.num / (q.den : ℤ)).toNat

/-- Cost of trading `n` out of `s` remaining shares in one slice of the
backward induction, given the value row `next` for the following slice:
`n*temp(n/0.5) + (s-n)*perm(n/0.5) + 0.5*(ra*sigma)^2*(s-n)^2*0.5 + next[s-n]`. -/
def dpCost (eta gamma ra sigmaDec : ℚ) (next : List ℚ) (s n : ℕ) : ℚ :=
  (n : ℚ) * tempImpact eta ((n : ℚ) / (1 / 2))
  + ((s : ℚ) - (n : ℚ)) * permImpact gamma ((n : ℚ) / (1 / 2))
  + 1 / 2 * (ra * sigmaDec) ^ (2 : ℕ) * ((s : ℚ) - (n : ℚ)) ^ (2 : ℕ) * (1 / 2)
  + next.getD (s - n) 0

/-- The minimizing scan `for n in range(shares + 1)` with initial best value
`float('inf')`: starting from `(f 0, 0)` and comparing with strict `<` is
equivalent, because the first iteration always replaces infinity. Returns
`(best_value, best_share_amount)`; ties keep the earlier index. -/
def scanMin (f : ℕ → ℚ) (s : ℕ) : ℚ × ℕ :=
  (List.range (s + 1)).foldl (fun best n => if f n < best.1 then (f n, n) else best)
    (f 0, 0)

/-- Terminal slice of `_calculate_optimal_trajectory`: liquidate all remaining
inventory, `value[T-1][s] = s * temp(s / 0.5)`. -/
def termRow (eta : ℚ) (n : ℕ) : List ℚ :=
  (List.range (n + 1)).map fun s => (s : ℚ) * tempImpact eta ((s : ℚ) / (1 / 2))

/-- One backward-induction step: the value row at slice `t` from the row at
`t+1`. -/
def dpNextRow (eta gamma ra sigmaDec : ℚ) (next : List ℚ) (n : ℕ) : List ℚ :=
  (List.range (n + 1)).map fun s => (scanMin (dpCost eta gamma ra sigmaDec next s) s).1

/-- The recorded best moves at a slice, from the value row of the next slice. -/
def dpMoveRow (eta gamma ra sigmaDec : ℚ) (next : List ℚ) (n : ℕ) : List ℕ :=
  (List.range (n + 1)).map fun s => (scanMin (dpCost eta gamma ra sigmaDec next s) s).2

/-- Value rows indexed by the number `k` of backward-induction steps taken from
the terminal slice: `dpValueRows … k` is `value[T-1-k]` for a horizon of
`T = k+1` or more slices. -/
def dpValueRows (eta gamma ra sigmaDec : ℚ) (n : ℕ) : ℕ → List ℚ
  | 0 => termRow eta n
  | k + 1 => dpNextRow eta gamma ra sigmaDec (dpValueRows eta gamma ra sigmaDec n k) n

/-- Forward simulation of `_calculate_optimal_trajectory`: starting from
inventory `curr` with `k` non-terminal slices left, read the recorded move of
the current slice (whose value row is `k-1` steps above the terminal one) and
recurse. Called with `k = time_steps - 1 = 9` and `curr = int(quantity)`. -/
def dpTraj (eta gamma ra sigmaDec : ℚ) (n : ℕ) : ℕ → ℕ → List ℕ
  | 0, _ => []
  | k + 1, curr =>
    let m := (dpMoveRow eta gamma ra sigmaDec (dpValueRows eta gamma ra sigmaDec n k) n).getD curr 0
    m :: dpTraj eta gamma ra sigmaDec n k (curr - m)

/-- Temporary-impact component of `calculate_impact`:
`total += trade_size * temp(trade_size)` for each positive trajectory entry. -/
def trajTempCost (eta : ℚ) (traj : List ℕ) : ℚ :=
  (traj.map fun n : ℕ => if 0 < n then (n : ℚ) * tempImpact eta (n : ℚ) else 0).sum

/-- Permanent-impact component of `calculate_impact`: for each slice `i`,
`total += sum(trajectory[i:]) * perm(trade_size_i)` (the remaining quantity
includes the current slice's trade). -/
def trajPermCost (gamma : ℚ) : List ℕ → ℚ
  | [] => 0
  | n :: rest =>
    ((n :: rest).map fun m : ℕ => (m : ℚ)).sum * permImpact gamma (n : ℚ)
      + trajPermCost gamma rest

/-- Embeds `MarketImpactModel.calculate_impact(orderbook, quantity, volatility)`.
In exact arithmetic the DP in the `try` block cannot raise, so the
`except` fallback (see `fallbackImpact`) is unreachable here; the calibration
step, which runs before the `try`, can raise on an unavailable or zero mid. -/
def calculateImpact (ob : OrderBook) (quantity volatility : ℚ) : Except PyError ℚ := do
  let normalized := min 1000 (max 10 (quantity / 10))
  let (eta, gamma) ← adjustParams ob quantity
  let n := ratFloorNat normalized
  let sigmaDec := volatility / 100
  let traj := dpTraj eta gamma (1 / 100) sigmaDec n 9 n
  let totalImpact := trajTempCost eta traj + trajPermCost gamma traj
  let impactPercentage := totalImpact / normalized * (quantity / 10000)
  .ok (max 0 (min (1 / 10) impactPercentage))

/-- The `except` fallback of `calculate_impact`:
`min(0.1, 0.02 * np.sqrt(relative_size))`, parametrized by the nonnegative
square root of the relative size, since `Real.sqrt` has no executable form. -/
def fallbackImpact (sqrtRelativeSize : ℚ) : ℚ :=
  min (1 / 10) (2 / 100 * sqrtRelativeSize)

/-- The `relative_size` recomputed from book depth on the fallback path of
`calculate_impact` (lines 183-185). -/
def fallbackRelSize (ob : OrderBook) (quantity : ℚ) : Except PyError ℚ := do
  let mid ← reqNum ob.getMidPrice
  let depth := sumQtyBelow ob.asks (mid * (1005 / 1000))
  .ok (if depth > 0 then quantity / depth else 1)

/-! ## MakerTakerModel (src/models/maker_taker.py)

The sklearn classifier and the random synthetic labels are oracles of the
embedding: `predict` takes the training-state flags, the classifier
probability `proba` that `predict_proba` would return, and whether that call
raises (its `except` branch). `_update_model` runs after the proportions are
computed and only mutates training state, never the returned value, so it is
not part of the embedded output. -/

/-- Training state of `MakerTakerModel` relevant to `predict`'s branch. -/
structure MTState where
  trained : Bool
  histLen : ℕ
deriving Repr, DecidableEq

/-- The ask-side depth sums of `_extract_features` / `_simulate_execution`:
`sum(float(size) for _, size in orderbook.asks if float(_) < get_mid_price() * mult)`.
When the ask list is empty the generator never evaluates its condition, so an
unavailable mid does not raise; otherwise it does. -/
def mtDepth (ob : OrderBook) (mult : ℚ) : Except PyError ℚ :=
  match ob.asks with
  | [] => .ok 0
  | _ => do
    let mid ← reqNum ob.getMidPrice
    .ok (sumQtyBelow ob.asks (mid * mult))

/-- Embeds `MakerTakerModel._extract_features(orderbook, quantity, volatility)`:
`[spread, depth_5bps, depth_10bps, relative_size, norm_volatility]` (the
spread entry may be Python `None`). -/
def mtExtractFeatures (ob : OrderBook) (quantity volatility : ℚ) :
    Except PyError (Option ℚ × ℚ × ℚ × ℚ × ℚ) := do
  let spread ← ob.getSpread
  let depth5 ← mtDepth ob (10005 / 10000)
  let depth10 ← mtDepth ob (1001 / 1000)
  let relativeSize := if depth5 > 0 then quantity / depth5 else 1
  let normVolatility := min (volatility / 10) 1
  .ok (spread, depth5, depth10, relativeSize, normVolatility)

/-- Embeds `MakerTakerModel._simulate_execution(orderbook, quantity, volatility)`:
the heuristic maker proportion. -/
def mtSimulateExecution (ob : OrderBook) (quantity volatility : ℚ) :
    Except PyError ℚ := do
  let baseMaker := max 0 (min (9 / 10) (1 - volatility / 15))
  let depth5 ← mtDepth ob (10005 / 10000)
  let relativeSize := if depth5 > 0 then quantity / depth5 else 1
  let sizeAdjustment := max 0 (min (1 / 2) (1 / 2 * (1 - relativeSize)))
  let spread ← ob.getSpread >>= reqNum
  let mid ← reqNum ob.getMidPrice
  let spreadOverMid ← pyDiv spread mid
  let spreadAdjustment := min (1 / 5) (spreadOverMid * 100)
  .ok (min (19 / 20) (max (1 / 20) (baseMaker + sizeAdjustment + spreadAdjustment)))

/-- Embeds `MakerTakerModel.predict(orderbook, quantity, volatility)`: returns the
`(maker_proportion, taker_proportion)` pair. -/
def mtPredict (ob : OrderBook) (quantity volatility : ℚ) (st : MTState)
    (proba : ℚ) (probaRaises : Bool) : Except PyError (ℚ × ℚ) := do
  let _features ← mtExtractFeatures ob quantity volatility
  let simulatedMaker ← mtSimulateExecution ob quantity volatility
  let raw :=
    if ¬ st.trained ∨ st.histLen < 50 then simulatedMaker
    else if probaRaises then simulatedMaker
    else 7 / 10 * proba + 3 / 10 * simulatedMaker
  let makerProportion := max 0 (min 1 raw)
  .ok (makerProportion, 1 - makerProportion)

/-! ## SlippageModel (src/models/slippage.py), deterministic baseline -/

/-- The walk loop of `SlippageModel._calculate_price_impact`: returns
`(remaining_qty, executed_value)` after consuming levels; a level with
`size >= remaining` fills the rest and stops. -/
def slipWalk : List (ℚ × ℚ) → ℚ → ℚ → ℚ × ℚ
  | [], remaining, value => (remaining, value)
  | (price, size) :: rest, remaining, value =>
    if size ≥ remaining then (0, value + remaining * price)
    else slipWalk rest (remaining - size) (value + size * price)

/-- Embeds `SlippageModel._calculate_price_impact(orderbook, quantity, side)`.
The unmet remainder is priced at the last level, or at the mid price for an
empty side — but an empty walked side forces an unavailable mid, so that
fallback multiplies `None` and raises `TypeError`. -/
def slipPriceImpact (ob : OrderBook) (quantity : ℚ) (side : Side) :
    Except PyError ℚ := do
  let bookSide := match side with | .buy => ob.asks | .sell => ob.bids
  let direction : ℚ := match side with | .buy => 1 | .sell => -1
  let (remaining, walked) := slipWalk bookSide quantity 0
  let executedValue ←
    if remaining > 0 then
      match bookSide.getLast? with
      | some (lastPrice, _) => pure (walked + remaining * lastPrice)
      | none => do
        let mid ← reqNum ob.getMidPrice
        pure (walked + remaining * mid)
    else
      pure walked
  let avgPrice ← pyDiv executedValue quantity
  let mid ← reqNum ob.getMidPrice
  .ok (direction * (avgPrice - mid))

/-! ## OKXWebsocket (src/ws/okx_ws.py), event-level model

`websocket.WebSocketApp(...)` only constructs a client object and registers
callbacks; no connection is opened and nothing is sent until `run_forever()`
is invoked on that object. Each constructed app is identified by a
generation number; sent frames are tagged with the generation of the app
whose `send` was called, and `time.sleep` calls are logged. -/

/-- Outbound frames of the client. -/
inductive OutMsg
  | login
  | ping
  | subscribeMsg (symbol : String)
  | unsubscribeMsg (symbol : String)
deriving Repr, DecidableEq

/-- Observable state of an `OKXWebsocket` instance plus its send/sleep log. -/
structure WSClient where
  isConnected : Bool
  shouldReconnect : Bool
  subscriptions : List String
  wsGen : Option ℕ
  nextGen : ℕ
  pingThread : Bool
  hasCreds : Bool
  sent : List (ℕ × OutMsg)
  sleepLog : List ℕ
deriving Repr, DecidableEq

/-- Embeds `OKXWebsocket.__init__`. -/
def WSClient.init (hasCreds : Bool) : WSClient :=
  { isConnected := false
    shouldReconnect := true
    subscriptions := []
    wsGen := none
    nextGen := 0
    pingThread := false
    hasCreds := hasCreds
    sent := []
    sleepLog := [] }

/-- Python `self.ws.send(...)` on the currently held app object. -/
def WSClient.send (c : WSClient) (m : OutMsg) : WSClient :=
  { c with sent := c.sent ++ [(c.wsGen.getD 0, m)] }

/-- Embeds `OKXWebsocket.connect`: constructs a fresh `WebSocketApp` and stores it in
`self.ws`. It does not open a transport connection, send anything, or run the
new app. -/
def WSClient.connect (c : WSClient) : WSClient :=
  { c with wsGen := some c.nextGen, nextGen := c.nextGen + 1 }

/-- Embeds `OKXWebsocket.subscribe(symbol)`: add to the set; send only if connected. -/
def WSClient.subscribe (c : WSClient) (symbol : String) : WSClient :=
  let c := if symbol ∈ c.subscriptions then c
           else { c with subscriptions := c.subscriptions ++ [symbol] }
  if c.isConnected ∧ c.wsGen.isSome then c.send (.subscribeMsg symbol) else c

/-- Embeds `OKXWebsocket._on_open`: mark connected, log in when credentials are
configured, resubscribe every tracked symbol, start the ping thread. Fired by
the websocket library when `run_forever` establishes the connection of the
app it was called on. -/
def WSClient.onOpen (c : WSClient) : WSClient :=
  let c := { c with isConnected := true }
  let c := if c.hasCreds then c.send .login else c
  let c := c.subscriptions.foldl
    (fun acc symbol =>
      if acc.isConnected ∧ acc.wsGen.isSome then acc.send (.subscribeMsg symbol) else acc)
    c
  { c with pingThread := true }

/-- Embeds `OKXWebsocket._on_close`: mark disconnected; while reconnection is
enabled, wait five seconds and call `connect` — which only constructs a new
app object. -/
def WSClient.onClose (c : WSClient) : WSClient :=
  let c := { c with isConnected := false }
  if c.shouldReconnect then
    ({ c with sleepLog := c.sleepLog ++ [5] }).connect
  else c

/-- Embeds `start()` followed by one full connection lifecycle of the app it spawned
`run_forever` on: the transport opens (`_on_open`), then later closes
(`_on_close`), after which `run_forever` returns and its thread exits. No
code ever invokes `run_forever` on the app constructed during `_on_close`. -/
def WSClient.startThenClose (symbols : List String) (hasCreds : Bool) : WSClient :=
  let c := symbols.foldl WSClient.subscribe (WSClient.init hasCreds)
  let c := { c with shouldReconnect := true }.connect
  (c.onOpen).onClose

/-! ## Predicates used by the statements -/

/-- Invariant of a side's dict: unique price keys, all quantities positive. -/
def DictInv (d : List (ℚ × ℚ)) : Prop :=
  (d.map Prod.fst).Nodup ∧ ∀ e ∈ d, 0 < e.2

/-- The best move recorded by the backward induction at a slice whose next
value row is `dpValueRows … k`, for remaining inventory `s`
(`best_moves[t][s]` with `k = time_steps - 2 - t`). -/
def dpBestMove (eta gamma ra sigmaDec : ℚ) (n k s : ℕ) : ℕ :=
  (dpMoveRow eta gamma ra sigmaDec (dpValueRows eta gamma ra sigmaDec n k) n).getD s 0

/-- States reachable by `update` calls: both dicts satisfy `DictInv` and the
materialized arrays are the rebuilt views of the dicts. -/
def BookReachInv (ob : OrderBook) : Prop :=
  DictInv ob.askDict ∧ DictInv ob.bidDict ∧
  ob.asks = rebuildAsks ob.askDict ob.maxDepth ∧
  ob.bids = rebuildBids ob.bidDict ob.maxDepth

/-! # Verification

## Dict and rebuild invariants (claim C1) -/

theorem dictSet_keys_of_mem (d : List (ℚ × ℚ)) (p q : ℚ)
    (h : d.any (fun e => e.1 = p) = true) :
    (dictSet d p q).map Prod.fst = d.map Prod.fst := by
  unfold dictSet
  rw [if_pos h, List.map_map]
  congr 1
  funext e
  by_cases he : e.1 = p <;> simp [he]

theorem dictSet_inv (d : List (ℚ × ℚ)) (hd : DictInv d) (p q : ℚ) (hq : 0 < q) :
    DictInv (dictSet d p q) := by
  by_cases h : d.any (fun e => e.1 = p) = true
  · refine ⟨?_, ?_⟩
    · rw [dictSet_keys_of_mem d p q h]; exact hd.1
    · intro e he
      unfold dictSet at he
      rw [if_pos h] at he
      obtain ⟨a, ha, rfl⟩ := List.mem_map.mp he
      by_cases hap : a.1 = p
      · simpa [hap] using hq
      · simpa [hap] using hd.2 a ha
  · refine ⟨?_, ?_⟩
    · unfold dictSet
      rw [if_neg h, List.map_append]
      refine List.nodup_append.mpr ⟨hd.1, List.nodup_singleton p, ?_⟩
      intro x hx hx'
      obtain ⟨a, ha, rfl⟩ := List.mem_map.mp hx
      have hap : a.1 = p := by simpa using hx'
      exact h (List.any_eq_true.mpr ⟨a, ha, by simpa using hap⟩)
    · intro e he
      unfold dictSet at he
      rw [if_neg h] at he
      rcases List.mem_append.mp he with h' | h'
      · exact hd.2 e h'
      · have : e = (p, q) := by simpa using h'
        simpa [this] using hq

theorem dictPop_inv (d : List (ℚ × ℚ)) (hd : DictInv d) (p : ℚ) :
    DictInv (dictPop d p) := by
  refine ⟨hd.1.sublist ((List.filter_sublist d).map Prod.fst), ?_⟩
  intro e he
  exact hd.2 e (List.mem_of_mem_filter he)

theorem applyDelta_inv (d : List (ℚ × ℚ)) (hd : DictInv d) (delta : ℚ × ℚ) :
    DictInv (applyDelta d delta) := by
  unfold applyDelta
  split
  · exact dictSet_inv d hd _ _ (by assumption)
  · exact dictPop_inv d hd _

theorem foldl_applyDelta_inv (deltas : List (ℚ × ℚ)) (d : List (ℚ × ℚ))
    (hd : DictInv d) : DictInv (deltas.foldl applyDelta d) := by
  induction deltas generalizing d with
  | nil => exact hd
  | cons a l ih => exact ih _ (applyDelta_inv d hd a)

theorem rebuildAsks_sorted (d : List (ℚ × ℚ)) (m : ℕ)
    (hnd : (d.map Prod.fst).Nodup) :
    (rebuildAsks d m).Pairwise fun a b => a.1 < b.1 := by
  have hperm : List.Perm (List.insertionSort askLe d) d := List.perm_insertionSort askLe d
  have hsorted : (List.insertionSort askLe d).Pairwise askLe :=
    List.sorted_insertionSort askLe d
  have hnd' : ((List.insertionSort askLe d).map Prod.fst).Nodup :=
    ((hperm.map Prod.fst).nodup_iff).mpr hnd
  have hne : (List.insertionSort askLe d).Pairwise fun a b => a.1 ≠ b.1 :=
    List.pairwise_map.mp hnd'
  have hlt : (List.insertionSort askLe d).Pairwise fun a b => a.1 < b.1 :=
    (hsorted.and hne).imp fun h => lt_of_le_of_ne h.1 h.2
  exact hlt.sublist (List.take_sublist m _)

theorem rebuildBids_sorted (d : List (ℚ × ℚ)) (m : ℕ)
    (hnd : (d.map Prod.fst).Nodup) :
    (rebuildBids d m).Pairwise fun a b => b.1 < a.1 := by
  have hperm : List.Perm (List.insertionSort bidGe d) d := List.perm_insertionSort bidGe d
  have hsorted : (List.insertionSort bidGe d).Pairwise bidGe :=
    List.sorted_insertionSort bidGe d
  have hnd' : ((List.insertionSort bidGe d).map Prod.fst).Nodup :=
    ((hperm.map Prod.fst).nodup_iff).mpr hnd
  have hne : (List.insertionSort bidGe d).Pairwise fun a b => a.1 ≠ b.1 :=
    List.pairwise_map.mp hnd'
  have hlt : (List.insertionSort bidGe d).Pairwise fun a b => b.1 < a.1 :=
    (hsorted.and hne).imp fun h => lt_of_le_of_ne h.1 (Ne.symm h.2)
  exact hlt.sublist (List.take_sublist m _)

theorem rebuildAsks_subset (d : List (ℚ × ℚ)) (m : ℕ) :
    ∀ e ∈ rebuildAsks d m, e ∈ d := fun e he =>
  (List.perm_insertionSort askLe d).mem_iff.mp ((List.take_sublist m _).subset he)

theorem rebuildBids_subset (d : List (ℚ × ℚ)) (m : ℕ) :
    ∀ e ∈ rebuildBids d m, e ∈ d := fun e he =>
  (List.perm_insertionSort bidGe d).mem_iff.mp ((List.take_sublist m _).subset he)

theorem rebuildAsks_length (d : List (ℚ × ℚ)) (m : ℕ) :
    (rebuildAsks d m).length ≤ m := by
  unfold rebuildAsks
  rw [List.length_take]
  exact min_le_left _ _

theorem rebuildBids_length (d : List (ℚ × ℚ)) (m : ℕ) :
    (rebuildBids d m).length ≤ m := by
  unfold rebuildBids
  rw [List.length_take]
  exact min_le_left _ _

theorem updateStatistics_book (ob : OrderBook) :
    (ob.updateStatistics).askDict = ob.askDict ∧
    (ob.updateStatistics).bidDict = ob.bidDict ∧
    (ob.updateStatistics).asks = ob.asks ∧
    (ob.updateStatistics).bids = ob.bids ∧
    (ob.updateStatistics).maxDepth = ob.maxDepth := by
  unfold OrderBook.updateStatistics
  split <;> (try dsimp only) <;> (try split) <;> (try split) <;> exact ⟨rfl, rfl, rfl, rfl, rfl⟩

theorem update_reachInv (ob : OrderBook) (h : BookReachInv ob)
    (asks bids : List (ℚ × ℚ)) (ts : ℚ) :
    BookReachInv (ob.update asks bids ts) := by
  obtain ⟨h1, h2, _, _⟩ := h
  unfold OrderBook.update
  obtain ⟨e1, e2, e3, e4, e5⟩ := updateStatistics_book
    { ob with
      timestamp := ts
      updateCount := ob.updateCount + 1
      askDict := asks.foldl applyDelta ob.askDict
      bidDict := bids.foldl applyDelta ob.bidDict
      asks := rebuildAsks (asks.foldl applyDelta ob.askDict) ob.maxDepth
      bids := rebuildBids (bids.foldl applyDelta ob.bidDict) ob.maxDepth }
  refine ⟨?_, ?_, ?_, ?_⟩
  · rw [e1]; exact foldl_applyDelta_inv asks _ h1
  · rw [e2]; exact foldl_applyDelta_inv bids _ h2
  · rw [e3, e1, e5]
  · rw [e4, e2, e5]

theorem update_maxDepth (ob : OrderBook) (asks bids : List (ℚ × ℚ)) (ts : ℚ) :
    (ob.update asks bids ts).maxDepth = ob.maxDepth := by
  unfold OrderBook.update
  exact (updateStatistics_book _).2.2.2.2

theorem applyUpdates_reachInv (msgs : List (List (ℚ × ℚ) × List (ℚ × ℚ) × ℚ))
    (ob : OrderBook) (h : BookReachInv ob) : BookReachInv (ob.applyUpdates msgs) := by
  induction msgs generalizing ob with
  | nil => exact h
  | cons a l ih => exact ih _ (update_reachInv ob h a.1 a.2.1 a.2.2)

theorem applyUpdates_maxDepth (msgs : List (List (ℚ × ℚ) × List (ℚ × ℚ) × ℚ))
    (ob : OrderBook) : (ob.applyUpdates msgs).maxDepth = ob.maxDepth := by
  induction msgs generalizing ob with
  | nil => rfl
  | cons a l ih =>
      have h : ob.applyUpdates (a :: l) = (ob.update a.1 a.2.1 a.2.2).applyUpdates l := rfl
      rw [h, ih, update_maxDepth]

theorem init_reachInv (sym : String) (m : ℕ) : BookReachInv (OrderBook.init sym m) := by
  refine ⟨⟨List.nodup_nil, ?_⟩, ⟨List.nodup_nil, ?_⟩, ?_, ?_⟩
  · intro e he; simp [OrderBook.init] at he
  · intro e he; simp [OrderBook.init] at he
  · simp [OrderBook.init, rebuildAsks]
  · simp [OrderBook.init, rebuildBids]

/-- C1: for every sequence of `update(asks, bids, timestamp)` calls applied to
an `OrderBook` starting empty, after each update the materialized ask list has
strictly increasing prices, the bid list has strictly decreasing prices, no
level on either side has zero quantity, and the level count on each side is at
most `max_depth`. (Quantifying over all call sequences covers the state after
each update of any longer sequence.) -/
theorem claim_C1_orderbook_invariants (sym : String) (maxDepth : ℕ)
    (msgs : List (List (ℚ × ℚ) × List (ℚ × ℚ) × ℚ)) :
    ((OrderBook.init sym maxDepth).applyUpdates msgs).asks.Pairwise
      (fun a b => a.1 < b.1) ∧
    ((OrderBook.init sym maxDepth).applyUpdates msgs).bids.Pairwise
      (fun a b => b.1 < a.1) ∧
    (∀ e ∈ ((OrderBook.init sym maxDepth).applyUpdates msgs).asks, e.2 ≠ 0) ∧
    (∀ e ∈ ((OrderBook.init sym maxDepth).applyUpdates msgs).bids, e.2 ≠ 0) ∧
    ((OrderBook.init sym maxDepth).applyUpdates msgs).asks.length ≤ maxDepth ∧
    ((OrderBook.init sym maxDepth).applyUpdates msgs).bids.length ≤ maxDepth := by
  have hinv := applyUpdates_reachInv msgs _ (init_reachInv sym maxDepth)
  have hmd : ((OrderBook.init sym maxDepth).applyUpdates msgs).maxDepth = maxDepth :=
    applyUpdates_maxDepth msgs _
  obtain ⟨⟨hka, hva⟩, ⟨hkb, hvb⟩, hra, hrb⟩ := hinv
  refine ⟨?_, ?_, ?_, ?_, ?_, ?_⟩
  · rw [hra]; exact rebuildAsks_sorted _ _ hka
  · rw [hrb]; exact rebuildBids_sorted _ _ hkb
  · rw [hra]; exact fun e he => (hva e (rebuildAsks_subset _ _ e he)).ne'
  · rw [hrb]; exact fun e he => (hvb e (rebuildBids_subset _ _ e he)).ne'
  · rw [hra, hmd]; exact rebuildAsks_length _ _
  · rw [hrb, hmd]; exact rebuildBids_length _ _

/-! ## Book walk (claim C5) -/

theorem totalQty_nonneg (levels : List (ℚ × ℚ)) (h : ∀ e ∈ levels, 0 ≤ e.2) :
    0 ≤ totalQty levels := by
  unfold totalQty
  apply List.sum_nonneg
  intro x hx
  obtain ⟨a, ha, rfl⟩ := List.mem_map.mp hx
  exact h a ha

theorem walkBook_exec (levels : List (ℚ × ℚ)) (h : ∀ e ∈ levels, 0 ≤ e.2) :
    ∀ remaining totalCost executed : ℚ, 0 ≤ remaining →
      (walkBook levels remaining totalCost executed).2
        = executed + min remaining (totalQty levels) := by
  induction levels with
  | nil =>
    intro r c x hr
    unfold walkBook totalQty
    simp [min_eq_right hr]
  | cons hd rest ih =>
    obtain ⟨p, q⟩ := hd
    have hq : 0 ≤ q := h (p, q) (List.mem_cons_self _ _)
    have hrest : ∀ e ∈ rest, 0 ≤ e.2 := fun e he => h e (List.mem_cons_of_mem _ he)
    have hT : 0 ≤ totalQty rest := totalQty_nonneg rest hrest
    intro r c x hr
    have htot : totalQty ((p, q) :: rest) = q + totalQty rest := by
      unfold totalQty; simp
    unfold walkBook
    by_cases hr0 : r ≤ 0
    · have : r = 0 := le_antisymm hr0 hr
      subst this
      rw [if_pos le_rfl, htot]
      rw [min_eq_left (by linarith)]
      ring
    · rw [if_neg hr0]
      have hrpos : 0 < r := lt_of_not_le hr0
      have hmin : min r q ≤ r := min_le_left _ _
      rw [ih hrest (r - min r q) (c + min r q * p) (x + min r q) (by linarith)]
      rw [htot]
      rcases le_total r q with hcase | hcase
      · rw [min_eq_left hcase]
        rw [show r - r = 0 by ring, min_eq_left hT]
        rw [min_eq_left (by linarith)]
        ring
      · rw [min_eq_right hcase]
        rcases le_total (r - q) (totalQty rest) with hc2 | hc2
        · rw [min_eq_left hc2, min_eq_left (by linarith)]
          ring
        · rw [min_eq_right hc2, min_eq_right (by linarith)]
          ring

theorem walkBook_cost (levels : List (ℚ × ℚ)) (hp : ∀ e ∈ levels, 0 < e.1)
    (hq : ∀ e ∈ levels, 0 ≤ e.2) :
    ∀ r c x : ℚ, c ≤ (walkBook levels r c x).1 ∧
      (x < (walkBook levels r c x).2 → c < (walkBook levels r c x).1) := by
  induction levels with
  | nil =>
    intro r c x
    unfold walkBook
    exact ⟨le_rfl, fun hx => absurd hx (lt_irrefl x)⟩
  | cons hd rest ih =>
    obtain ⟨p, q⟩ := hd
    have hphd : 0 < p := (hp (p, q) (List.mem_cons_self _ _))
    have hqhd : 0 ≤ q := hq (p, q) (List.mem_cons_self _ _)
    have hprest : ∀ e ∈ rest, 0 < e.1 := fun e he => hp e (List.mem_cons_of_mem _ he)
    have hqrest : ∀ e ∈ rest, 0 ≤ e.2 := fun e he => hq e (List.mem_cons_of_mem _ he)
    intro r c x
    unfold walkBook
    by_cases hr0 : r ≤ 0
    · rw [if_pos hr0]
      exact ⟨le_rfl, fun hx => absurd hx (lt_irrefl x)⟩
    · rw [if_neg hr0]
      dsimp only
      have hrpos : 0 < r := lt_of_not_le hr0
      have he0 : 0 ≤ min r q := le_min (le_of_lt hrpos) hqhd
      have hep : 0 ≤ min r q * p := mul_nonneg he0 (le_of_lt hphd)
      obtain ⟨ih1, ih2⟩ := ih hprest hqrest (r - min r q) (c + min r q * p) (x + min r q)
      constructor
      · linarith
      · intro hx
        by_cases hez : min r q = 0
        · rw [hez] at ih1 ih2 hx ⊢
          simp only [zero_mul, add_zero, sub_zero] at ih1 ih2 hx ⊢
          exact ih2 hx
        · have hepos : 0 < min r q := lt_of_le_of_ne he0 (Ne.symm hez)
          have : 0 < min r q * p := mul_pos hepos hphd
          linarith

/-- C5 (amended): for every orderbook state whose walked-side levels carry
positive prices and nonnegative quantities, and every order quantity `Q ≥ 0`,
`calculate_market_impact(side, Q)` returns (without raising) a result whose
executed quantity is `min Q (total quantity on the walked side)`; for `Q = 0`
the result is `(None, 0, 0)` (unavailable average price), and insufficient
liquidity yields a partial fill `executed < Q` rather than an error. -/
theorem claim_C5_book_walk (ob : OrderBook) (side : Side) (quantity : ℚ)
    (hl : ∀ e ∈ sideLevels ob side, 0 < e.1 ∧ 0 ≤ e.2) (hq : 0 ≤ quantity) :
    ∃ r, ob.calculateMarketImpact side quantity = .ok r ∧
      r.2.2 = min quantity (totalQty (sideLevels ob side)) ∧
      (quantity = 0 → r = (none, 0, 0)) ∧
      (totalQty (sideLevels ob side) < quantity → r.2.2 < quantity) := by
  have hp : ∀ e ∈ sideLevels ob side, 0 < e.1 := fun e he => (hl e he).1
  have hqs : ∀ e ∈ sideLevels ob side, 0 ≤ e.2 := fun e he => (hl e he).2
  have hT : 0 ≤ totalQty (sideLevels ob side) := totalQty_nonneg _ hqs
  have hexec := walkBook_exec (sideLevels ob side) hqs quantity 0 0 hq
  rw [zero_add] at hexec
  obtain ⟨hcost1, hcost2⟩ := walkBook_cost (sideLevels ob side) hp hqs quantity 0 0
  unfold OrderBook.calculateMarketImpact
  dsimp only
  by_cases hpos : 0 < (walkBook (sideLevels ob side) quantity 0 0).2
  · rw [if_pos hpos]
    have havg : (walkBook (sideLevels ob side) quantity 0 0).1
        / (walkBook (sideLevels ob side) quantity 0 0).2 ≠ 0 :=
      div_ne_zero (ne_of_gt (hcost2 hpos)) (ne_of_gt hpos)
    have hq0 : quantity ≠ 0 := by
      intro h0
      rw [h0] at hpos
      rw [h0, min_eq_left hT] at hexec
      rw [hexec] at hpos
      exact lt_irrefl 0 hpos
    have hmlt : totalQty (sideLevels ob side) < quantity →
        (walkBook (sideLevels ob side) quantity 0 0).2 < quantity := by
      intro hlt
      rw [hexec]
      exact min_lt_iff.mpr (Or.inr hlt)
    rcases hmid : ob.getMidPrice with _ | mid
    · exact ⟨_, rfl, hexec, fun h0 => absurd h0 hq0, hmlt⟩
    · dsimp only
      by_cases hmz : mid ≠ 0
      · rw [if_pos hmz]
        cases side with
        | buy => exact ⟨_, rfl, hexec, fun h0 => absurd h0 hq0, hmlt⟩
        | sell =>
          rw [if_neg havg]
          exact ⟨_, rfl, hexec, fun h0 => absurd h0 hq0, hmlt⟩
      · rw [if_neg hmz]
        exact ⟨_, rfl, hexec, fun h0 => absurd h0 hq0, hmlt⟩
  · rw [if_neg hpos]
    have hmin0 : min quantity (totalQty (sideLevels ob side)) = 0 := by
      have h1 : 0 ≤ min quantity (totalQty (sideLevels ob side)) := le_min hq hT
      have h2 : (walkBook (sideLevels ob side) quantity 0 0).2 ≤ 0 := le_of_not_lt hpos
      rw [hexec] at h2
      exact le_antisymm h2 h1
    refine ⟨(none, 0, 0), rfl, ?_, fun _ => rfl, ?_⟩
    · simp [hmin0]
    · intro hlt
      have : 0 < quantity := lt_of_le_of_lt hT hlt
      simpa [hmin0] using this

/-- C5 counterexample to the unconditional claim: on a (reachable) book whose
bid side holds a negative-priced level, a sell walk can average to price zero,
and the impact computation then raises `ZeroDivisionError` instead of
returning the executed quantity; and for a negative quantity the walk executes
nothing, so the executed quantity `0` differs from `min(Q, total)`. -/
theorem claim_C5_counterexample :
    OrderBook.calculateMarketImpact
        ((OrderBook.init "X" 100).update [(2, 5)] [(1, 5), (-1, 5)] 1) Side.sell 10
      = .error .zeroDivisionError ∧
    OrderBook.calculateMarketImpact
        ((OrderBook.init "X" 100).update [(2, 5)] [(1, 5)] 1) Side.buy (-1)
      = .ok (none, 0, 0) ∧
    min (-1 : ℚ)
        (totalQty (sideLevels ((OrderBook.init "X" 100).update [(2, 5)] [(1, 5)] 1)
          Side.buy)) ≠ 0 := by
  decide

theorem claim_C5_book_walk_witness :
    (∀ e ∈ sideLevels ((OrderBook.init "X" 100).update [(100, 3)] [(99, 4)] 1) Side.buy,
        0 < e.1 ∧ 0 ≤ e.2) ∧ (0 ≤ (10 : ℚ)) ∧
    ∃ r, OrderBook.calculateMarketImpact
        ((OrderBook.init "X" 100).update [(100, 3)] [(99, 4)] 1) Side.buy 10 = .ok r ∧
      r.2.2 = min 10 (totalQty
        (sideLevels ((OrderBook.init "X" 100).update [(100, 3)] [(99, 4)] 1) Side.buy)) ∧
      ((10 : ℚ) = 0 → r = (none, 0, 0)) ∧
      (totalQty (sideLevels ((OrderBook.init "X" 100).update [(100, 3)] [(99, 4)] 1)
          Side.buy) < 10 → r.2.2 < 10) :=
  ⟨by decide, by decide, claim_C5_book_walk _ Side.buy 10 (by decide) (by decide)⟩

/-! ## Empty-book slippage baseline (claim C4) -/

/-- C4 (code bug evidence): the deterministic slippage baseline on an entirely
empty book with `Q = 1` raises `TypeError` — the "price the remainder at mid"
fallback multiplies by `get_mid_price()`, which is `None` exactly when that
fallback is reached — instead of pricing the quantity at mid and returning
slippage `0` as the spec states. -/
theorem claim_C4_empty_book_crash :
    slipPriceImpact (OrderBook.init "X" 100) 1 Side.buy = .error .typeError := by
  decide

/-! ## Reconnect behaviour (claim C6) -/

/-- C6 (code bug evidence): one subscribed symbol, one connection lifecycle.
When the transport closes with `should_reconnect` true, `_on_close` sleeps 5
seconds and calls `connect()`, which only constructs a second `WebSocketApp`
(generation 1): `run_forever` is never invoked on it, so no connection is
reestablished (`isConnected` stays `false`), nothing is ever sent on the new
app, and the tracked symbol is never resubscribed (the only subscribe frame
ever sent is the one on the original connection, generation 0). -/
theorem claim_C6_reconnect_never_runs :
    (WSClient.startThenClose ["BTC-USDT"] false).isConnected = false ∧
    (WSClient.startThenClose ["BTC-USDT"] false).sleepLog = [5] ∧
    (WSClient.startThenClose ["BTC-USDT"] false).wsGen = some 1 ∧
    (WSClient.startThenClose ["BTC-USDT"] false).nextGen = 2 ∧
    (WSClient.startThenClose ["BTC-USDT"] false).sent
      = [(0, OutMsg.subscribeMsg "BTC-USDT")] := by
  decide

/-! ## Truthiness of point queries (claim C9) -/

/-- C9: if either best price equals `0` while both sides are non-empty,
`get_mid_price` and `get_spread` return the unavailable value `None`:
availability is decided by truthiness of the best prices, not solely by
non-emptiness. -/
theorem claim_C9_zero_price_truthiness (ob : OrderBook)
    (ha : ob.asks ≠ []) (hb : ob.bids ≠ [])
    (h : ob.asks.head?.map Prod.fst = some 0 ∨ ob.bids.head?.map Prod.fst = some 0) :
    ob.getMidPrice = none ∧ ob.getSpread = .ok none := by
  rcases hA : ob.asks with _ | ⟨⟨ap, aq⟩, arest⟩
  · exact absurd hA ha
  rcases hB : ob.bids with _ | ⟨⟨bp, bq⟩, brest⟩
  · exact absurd hB hb
  unfold OrderBook.getMidPrice OrderBook.getSpread OrderBook.getBestAsk OrderBook.getBestBid
  rw [hA, hB] at h ⊢
  simp only [List.head?_cons, Option.map_some] at h
  rcases h with h | h
  · have : ap = 0 := by simpa using h
    subst this
    simp
  · have : bp = 0 := by simpa using h
    subst this
    simp

theorem claim_C9_witness :
    ((OrderBook.init "X" 100).update [(0, 5)] [(1, 5)] 7).getMidPrice = none ∧
    ((OrderBook.init "X" 100).update [(0, 5)] [(1, 5)] 7).getSpread = .ok none :=
  claim_C9_zero_price_truthiness _ (by decide) (by decide) (Or.inl (by decide))

/-! ## Mid-price availability helpers (claims C2, C3, C7, C10) -/

theorem bind_ok_eq {e a b : Type} (x : a) (f : a → Except e b) :
    (Except.ok x >>= f : Except e b) = f x := rfl

theorem getMidPrice_eq (ob : OrderBook) :
    ob.getMidPrice =
      match ob.asks.head?.map Prod.fst, ob.bids.head?.map Prod.fst with
      | some ap, some bp =>
        if ap ≠ 0 ∧ bp ≠ 0 then some ((ap + bp) / 2) else none
      | _, _ => none := by
  unfold OrderBook.getMidPrice OrderBook.getBestAsk OrderBook.getBestBid
  rcases ob.asks.head? with _ | ⟨ap, aq⟩ <;> rcases ob.bids.head? with _ | ⟨bp, bq⟩ <;> rfl

theorem getSpread_eq (ob : OrderBook) :
    ob.getSpread =
      match ob.asks.head?.map Prod.fst, ob.bids.head?.map Prod.fst with
      | some ap, some bp =>
        if ap ≠ 0 ∧ bp ≠ 0 then
          if (ap + bp) / 2 = 0 then .error .zeroDivisionError
          else .ok (some ((ap - bp) / ((ap + bp) / 2) * 10000))
        else .ok none
      | _, _ => .ok none := by
  unfold OrderBook.getSpread OrderBook.getBestAsk OrderBook.getBestBid
  rcases ob.asks.head? with _ | ⟨ap, aq⟩ <;> rcases ob.bids.head? with _ | ⟨bp, bq⟩ <;> rfl

theorem mid_spread_of_mid (ob : OrderBook) (m : ℚ)
    (hm : ob.getMidPrice = some m) (hmz : m ≠ 0) :
    ob.getSpread = .ok (some ((Option.getD (ob.asks.head?.map Prod.fst) 0
      - Option.getD (ob.bids.head?.map Prod.fst) 0) / m * 10000)) := by
  rw [getMidPrice_eq] at hm
  rw [getSpread_eq]
  cases hA : ob.asks.head?.map Prod.fst with
  | none => rw [hA] at hm; cases hm
  | some ap =>
    cases hB : ob.bids.head?.map Prod.fst with
    | none => rw [hA, hB] at hm; cases hm
    | some bp =>
      rw [hA, hB] at hm
      dsimp only at hm ⊢
      split at hm
      · next hc =>
        have hmv : (ap + bp) / 2 = m := Option.some.inj hm
        rw [if_pos hc, hmv, if_neg hmz]
        rfl
      · next hc => cases hm

theorem mtDepth_ok (ob : OrderBook) (m : ℚ) (hm : ob.getMidPrice = some m)
    (mult : ℚ) : ∃ d, mtDepth ob mult = .ok d := by
  unfold mtDepth
  cases hA : ob.asks with
  | nil => exact ⟨0, rfl⟩
  | cons a l =>
    rw [hm]
    exact ⟨_, rfl⟩

theorem mtSimulateExecution_ok (ob : OrderBook) (q vol m : ℚ)
    (hm : ob.getMidPrice = some m) (hmz : m ≠ 0) :
    ∃ sim, mtSimulateExecution ob q vol = .ok sim := by
  obtain ⟨d5, hd5⟩ := mtDepth_ok ob m hm (10005 / 10000)
  have hsp := mid_spread_of_mid ob m hm hmz
  unfold mtSimulateExecution
  rw [hd5, hsp, hm]
  simp only [bind_ok_eq, reqNum, pyDiv, if_neg hmz]
  exact ⟨_, rfl⟩

theorem mtExtractFeatures_ok (ob : OrderBook) (q vol m : ℚ)
    (hm : ob.getMidPrice = some m) (hmz : m ≠ 0) :
    ∃ f, mtExtractFeatures ob q vol = .ok f := by
  obtain ⟨d5, hd5⟩ := mtDepth_ok ob m hm (10005 / 10000)
  obtain ⟨d10, hd10⟩ := mtDepth_ok ob m hm (1001 / 1000)
  have hsp := mid_spread_of_mid ob m hm hmz
  unfold mtExtractFeatures
  rw [hsp, hd5, hd10]
  exact ⟨_, rfl⟩

/-- C2 (amended): whenever the book's mid price is available and nonzero (both
sides non-empty with truthy best prices), `MakerTakerModel.predict` returns —
on every branch: untrained, trained, and the `predict_proba` error fallback,
for any classifier probability — a pair with `maker_proportion` and
`taker_proportion` each in `[0, 1]` and summing exactly to `1`. -/
theorem claim_C2_maker_taker_proportions (ob : OrderBook) (q vol : ℚ)
    (st : MTState) (proba : ℚ) (probaRaises : Bool) (m : ℚ)
    (hm : ob.getMidPrice = some m) (hmz : m ≠ 0) :
    ∃ maker taker, mtPredict ob q vol st proba probaRaises = .ok (maker, taker) ∧
      0 ≤ maker ∧ maker ≤ 1 ∧ 0 ≤ taker ∧ taker ≤ 1 ∧ maker + taker = 1 := by
  obtain ⟨f, hf⟩ := mtExtractFeatures_ok ob q vol m hm hmz
  obtain ⟨sim, hsim⟩ := mtSimulateExecution_ok ob q vol m hm hmz
  unfold mtPredict
  rw [hf, hsim]
  refine ⟨_, _, rfl, le_max_left _ _, max_le (by norm_num) (min_le_left _ _), ?_, ?_, by ring⟩
  · have : max 0 (min 1 (if ¬st.trained = true ∨ st.histLen < 50 then sim
        else if probaRaises = true then sim else 7 / 10 * proba + 3 / 10 * sim)) ≤ 1 :=
      max_le (by norm_num) (min_le_left _ _)
    linarith
  · have : (0:ℚ) ≤ max 0 (min 1 (if ¬st.trained = true ∨ st.histLen < 50 then sim
        else if probaRaises = true then sim else 7 / 10 * proba + 3 / 10 * sim)) :=
      le_max_left _ _
    linarith

/-- C2 counterexample to the unconditional claim: on an empty book (a
reachable orderbook state), `predict` raises `TypeError` — the spread and mid
price are `None` and `_simulate_execution` divides them — instead of
returning any proportions. -/
theorem claim_C2_counterexample :
    mtPredict (OrderBook.init "X" 100) 100 2 ⟨false, 0⟩ 0 false
      = .error .typeError := by
  decide

theorem claim_C2_witness :
    ((OrderBook.init "X" 100).update [(100, 80)] [(999/10, 5)] 1).getMidPrice
        = some (1999/20) ∧ ((1999:ℚ)/20) ≠ 0 ∧
    ∃ maker taker,
      mtPredict ((OrderBook.init "X" 100).update [(100, 80)] [(999/10, 5)] 1)
          100 2 ⟨true, 60⟩ (1/3) false = .ok (maker, taker) ∧
        0 ≤ maker ∧ maker ≤ 1 ∧ 0 ≤ taker ∧ taker ≤ 1 ∧ maker + taker = 1 :=
  ⟨by decide, by decide,
    claim_C2_maker_taker_proportions _ 100 2 ⟨true, 60⟩ (1/3) false (1999/20)
      (by decide) (by decide)⟩

/-! ## Market impact range (claim C3) -/

theorem adjustParams_ok (ob : OrderBook) (q m : ℚ)
    (hm : ob.getMidPrice = some m) (hmz : m ≠ 0) :
    ∃ eta gamma, adjustParams ob q = .ok (eta, gamma) ∧
      1/100 ≤ eta ∧ eta ≤ 1/10 ∧ 1/100 ≤ gamma ∧ gamma ≤ 1/10 := by
  have hsp := mid_spread_of_mid ob m hm hmz
  unfold adjustParams
  rw [hm, hsp]
  simp only [bind_ok_eq, reqNum, pyDiv, if_neg hmz]
  exact ⟨_, _, rfl, le_max_left _ _, max_le (by norm_num) (min_le_left _ _),
    le_max_left _ _, max_le (by norm_num) (min_le_left _ _)⟩

/-- C3 (amended): whenever the book's mid price is available and nonzero,
`calculate_impact` returns a value clamped to `[0, 0.1]` on the DP path; and
the error-fallback formula `min(0.1, 0.02 * sqrt(relative_size))` also lies in
`[0, 0.1]` for every nonnegative square root. -/
theorem claim_C3_impact_range (ob : OrderBook) (q vol m : ℚ)
    (hm : ob.getMidPrice = some m) (hmz : m ≠ 0) :
    (∃ r, calculateImpact ob q vol = .ok r ∧ 0 ≤ r ∧ r ≤ 1/10) ∧
    (∀ s, 0 ≤ s → 0 ≤ fallbackImpact s ∧ fallbackImpact s ≤ 1/10) := by
  constructor
  · obtain ⟨eta, gamma, hadj, _⟩ := adjustParams_ok ob q m hm hmz
    unfold calculateImpact
    rw [hadj]
    exact ⟨_, rfl, le_max_left _ _, max_le (by norm_num) (min_le_left _ _)⟩
  · intro s hs
    unfold fallbackImpact
    exact ⟨le_min (by norm_num) (mul_nonneg (by norm_num) hs), min_le_left _ _⟩

/-- C3 counterexample to the unconditional claim: on an empty book (a
reachable orderbook state), `calculate_impact` raises `TypeError` before
reaching either the DP or the fallback — the calibration step runs outside
the `try` block and does arithmetic on the unavailable mid and spread —
instead of returning a value in `[0, 0.1]`. -/
theorem claim_C3_counterexample :
    calculateImpact (OrderBook.init "X" 100) 100 5 = .error .typeError := by
  decide

theorem claim_C3_witness :
    ((OrderBook.init "X" 100).update [(100, 80)] [(999/10, 5)] 1).getMidPrice
        = some (1999/20) ∧ ((1999:ℚ)/20) ≠ 0 ∧
    ((∃ r, calculateImpact ((OrderBook.init "X" 100).update [(100, 80)] [(999/10, 5)] 1)
        600 5 = .ok r ∧ 0 ≤ r ∧ r ≤ 1/10) ∧
      (∀ s, 0 ≤ s → 0 ≤ fallbackImpact s ∧ fallbackImpact s ≤ 1/10)) :=
  ⟨by decide, by decide,
    claim_C3_impact_range _ 600 5 (1999/20) (by decide) (by decide)⟩

/-! ## Bid-side independence (claim C10) -/

/-- C10: `calculate_impact` depends on the bid side only through the best bid
price: two books with identical ask levels and identical best bid price give
identical impact for the same quantity and volatility, regardless of bid
quantities or deeper bid levels; the fallback path's `relative_size`,
recomputed from ask-side depth, coincides as well. -/
theorem claim_C10_bid_independence (ob1 ob2 : OrderBook) (q vol : ℚ)
    (ha : ob1.asks = ob2.asks)
    (hb : ob1.bids.head?.map Prod.fst = ob2.bids.head?.map Prod.fst) :
    calculateImpact ob1 q vol = calculateImpact ob2 q vol ∧
    fallbackRelSize ob1 q = fallbackRelSize ob2 q := by
  have hmid : ob1.getMidPrice = ob2.getMidPrice := by
    rw [getMidPrice_eq, getMidPrice_eq, ha, hb]
  have hspread : ob1.getSpread = ob2.getSpread := by
    rw [getSpread_eq, getSpread_eq, ha, hb]
  have hadj : adjustParams ob1 q = adjustParams ob2 q := by
    unfold adjustParams
    rw [hmid, hspread, ha]
  constructor
  · unfold calculateImpact
    rw [hadj]
  · unfold fallbackRelSize
    rw [hmid, ha]

theorem claim_C10_witness :
    ((OrderBook.init "X" 100).update [(100, 5)] [(99, 7)] 1).asks
        = ((OrderBook.init "X" 100).update [(100, 5)] [(99, 2), (98, 4)] 2).asks ∧
    ((OrderBook.init "X" 100).update [(100, 5)] [(99, 7)] 1).bids.head?.map Prod.fst
        = ((OrderBook.init "X" 100).update [(100, 5)] [(99, 2), (98, 4)] 2).bids.head?.map
            Prod.fst ∧
    (calculateImpact ((OrderBook.init "X" 100).update [(100, 5)] [(99, 7)] 1) 50 5
        = calculateImpact ((OrderBook.init "X" 100).update [(100, 5)] [(99, 2), (98, 4)] 2)
            50 5 ∧
      fallbackRelSize ((OrderBook.init "X" 100).update [(100, 5)] [(99, 7)] 1) 50
        = fallbackRelSize ((OrderBook.init "X" 100).update [(100, 5)] [(99, 2), (98, 4)] 2)
            50) :=
  ⟨by decide, by decide, claim_C10_bid_independence _ _ 50 5 (by decide) (by decide)⟩

/-! ## The minimizing scan of the backward induction (claim C8) -/

theorem scanMin_succ (f : ℕ → ℚ) (s : ℕ) :
    scanMin f (s + 1)
      = if f (s + 1) < (scanMin f s).1 then (f (s + 1), s + 1) else scanMin f s := by
  unfold scanMin
  rw [List.range_succ, List.foldl_append]
  rfl

theorem scanMin_zero (f : ℕ → ℚ) : scanMin f 0 = (f 0, 0) := by
  unfold scanMin
  have h1 : List.range 1 = [0] := rfl
  rw [h1]
  simp

theorem scanMin_spec (f : ℕ → ℚ) (s : ℕ) :
    (scanMin f s).1 = f (scanMin f s).2 ∧ (scanMin f s).2 ≤ s ∧
    (∀ v, v ≤ s → (scanMin f s).1 ≤ f v) ∧
    (∀ v, v < (scanMin f s).2 → (scanMin f s).1 < f v) := by
  induction s with
  | zero =>
    rw [scanMin_zero]
    refine ⟨rfl, le_refl 0, ?_, ?_⟩
    · intro v hv
      have : v = 0 := Nat.le_zero.mp hv
      rw [this]
    · intro v hv
      exact absurd hv (Nat.not_lt_zero v)
  | succ s ih =>
    obtain ⟨ih1, ih2, ih3, ih4⟩ := ih
    rw [scanMin_succ]
    by_cases h : f (s + 1) < (scanMin f s).1
    · rw [if_pos h]
      refine ⟨rfl, le_refl _, ?_, ?_⟩
      · intro v hv
        rcases Nat.lt_succ_iff_lt_or_eq.mp (Nat.lt_succ_of_le hv) with hv' | hv'
        · exact le_of_lt (lt_of_lt_of_le h (ih3 v (Nat.lt_succ_iff.mp hv')))
        · rw [hv']
      · intro v hv
        exact lt_of_lt_of_le h (ih3 v (Nat.lt_succ_iff.mp hv))
    · rw [if_neg h]
      refine ⟨ih1, Nat.le_succ_of_le ih2, ?_, ih4⟩
      intro v hv
      rcases Nat.lt_succ_iff_lt_or_eq.mp (Nat.lt_succ_of_le hv) with hv' | hv'
      · exact ih3 v (Nat.lt_succ_iff.mp hv')
      · rw [hv']
        exact le_of_not_lt h

theorem getD_map_range {α : Type} (f : ℕ → α) (n i : ℕ) (d : α) (h : i < n) :
    ((List.range n).map f).getD i d = f i := by
  rw [List.getD_eq_getElem?_getD, List.getElem?_map, List.getElem?_range h]
  rfl

/-- C8: in the backward induction, for every non-terminal slice (whose
next-slice value row is `dpValueRows … k`) and every remaining inventory
`s ≤ N`, the recorded best move lies in `[0, s]`, the recorded value is the
cost it attains, that cost is minimal over every feasible trade size in
`[0, s]`, and every strictly smaller trade size has strictly larger cost — so
the left-to-right scan with a strict less-than comparison deterministically
keeps the smallest minimizer. -/
theorem claim_C8_dp_first_minimum (eta gamma ra sigmaDec : ℚ) (n k s : ℕ)
    (hs : s ≤ n) :
    dpBestMove eta gamma ra sigmaDec n k s ≤ s ∧
    (dpNextRow eta gamma ra sigmaDec (dpValueRows eta gamma ra sigmaDec n k) n).getD s 0
      = dpCost eta gamma ra sigmaDec (dpValueRows eta gamma ra sigmaDec n k) s
          (dpBestMove eta gamma ra sigmaDec n k s) ∧
    (∀ v, v ≤ s →
      dpCost eta gamma ra sigmaDec (dpValueRows eta gamma ra sigmaDec n k) s
          (dpBestMove eta gamma ra sigmaDec n k s)
        ≤ dpCost eta gamma ra sigmaDec (dpValueRows eta gamma ra sigmaDec n k) s v) ∧
    (∀ v, v < dpBestMove eta gamma ra sigmaDec n k s →
      dpCost eta gamma ra sigmaDec (dpValueRows eta gamma ra sigmaDec n k) s
          (dpBestMove eta gamma ra sigmaDec n k s)
        < dpCost eta gamma ra sigmaDec (dpValueRows eta gamma ra sigmaDec n k) s v) := by
  obtain ⟨h1, h2, h3, h4⟩ :=
    scanMin_spec (dpCost eta gamma ra sigmaDec (dpValueRows eta gamma ra sigmaDec n k) s) s
  unfold dpBestMove dpMoveRow dpNextRow
  rw [getD_map_range _ _ _ _ (Nat.lt_succ_of_le hs),
    getD_map_range _ _ _ _ (Nat.lt_succ_of_le hs)]
  refine ⟨h2, h1, ?_, ?_⟩
  · intro v hv
    rw [← h1]
    exact h3 v hv
  · intro v hv
    rw [← h1]
    exact h4 v hv

theorem claim_C8_witness :
    (4 ≤ 6) ∧
    (dpBestMove (1/20) (1/20) (1/100) (1/10) 6 1 4 ≤ 4 ∧
      (dpNextRow (1/20) (1/20) (1/100) (1/10) (dpValueRows (1/20) (1/20) (1/100) (1/10) 6 1) 6).getD 4 0
        = dpCost (1/20) (1/20) (1/100) (1/10) (dpValueRows (1/20) (1/20) (1/100) (1/10) 6 1) 4
            (dpBestMove (1/20) (1/20) (1/100) (1/10) 6 1 4) ∧
      (∀ v, v ≤ 4 →
        dpCost (1/20) (1/20) (1/100) (1/10) (dpValueRows (1/20) (1/20) (1/100) (1/10) 6 1) 4
            (dpBestMove (1/20) (1/20) (1/100) (1/10) 6 1 4)
          ≤ dpCost (1/20) (1/20) (1/100) (1/10) (dpValueRows (1/20) (1/20) (1/100) (1/10) 6 1) 4 v) ∧
      (∀ v, v < dpBestMove (1/20) (1/20) (1/100) (1/10) 6 1 4 →
        dpCost (1/20) (1/20) (1/100) (1/10) (dpValueRows (1/20) (1/20) (1/100) (1/10) 6 1) 4
            (dpBestMove (1/20) (1/20) (1/100) (1/10) 6 1 4)
          < dpCost (1/20) (1/20) (1/100) (1/10) (dpValueRows (1/20) (1/20) (1/100) (1/10) 6 1) 4 v)) :=
  ⟨by decide, claim_C8_dp_first_minimum (1/20) (1/20) (1/100) (1/10) 6 1 4 (by decide)⟩

/-! ## Market impact versus quantity (claim C7) -/

set_option maxRecDepth 8000 in
/-- C7 counterexample to monotonicity: on the fixed book with one ask level
`(100, 80)` and one bid level `(99.9, 5)`, at fixed volatility `200`, the
impact of the larger quantity `7/4` is strictly below the impact of the
smaller quantity `3/2`: growing `Q` raises the calibrated temporary-impact
coefficient, which switches the optimal DP trajectory, and the total impact
recomputed from the new trajectory drops. -/
theorem claim_C7_counterexample :
    calculateImpact ((OrderBook.init "X" 100).update [(100, 80)] [(999/10, 5)] 1)
        (3/2) 200 = .ok (7467/80000000) ∧
    calculateImpact ((OrderBook.init "X" 100).update [(100, 80)] [(999/10, 5)] 1)
        (7/4) 200 = .ok (111321/1280000000) ∧
    ((3:ℚ)/2) < 7/4 ∧ ((111321:ℚ)/1280000000) < 7467/80000000 := by
  refine ⟨by decide, by decide, by norm_num, by norm_num⟩

theorem dpMove_le (eta gamma ra sigmaDec : ℚ) (next : List ℚ) (n curr : ℕ) :
    (dpMoveRow eta gamma ra sigmaDec next n).getD curr 0 ≤ curr := by
  by_cases h : curr < n + 1
  · unfold dpMoveRow
    rw [getD_map_range _ _ _ _ h]
    exact (scanMin_spec _ curr).2.1
  · unfold dpMoveRow
    rw [List.getD_eq_getElem?_getD, List.getElem?_eq_none (by simpa using Nat.le_of_not_lt h)]
    exact Nat.zero_le curr

theorem dpTraj_sum_le (eta gamma ra sigmaDec : ℚ) (n : ℕ) :
    ∀ k curr, (dpTraj eta gamma ra sigmaDec n k curr).sum ≤ curr := by
  intro k
  induction k with
  | zero =>
    intro curr
    unfold dpTraj
    simp
  | succ k ih =>
    intro curr
    unfold dpTraj
    dsimp only
    rw [List.sum_cons]
    have hm := dpMove_le eta gamma ra sigmaDec (dpValueRows eta gamma ra sigmaDec n k) n curr
    have ht := ih
      (curr - (dpMoveRow eta gamma ra sigmaDec (dpValueRows eta gamma ra sigmaDec n k) n).getD curr 0)
    omega

theorem castSum_nonneg (l : List ℕ) : 0 ≤ (l.map fun v : ℕ => (v : ℚ)).sum := by
  apply List.sum_nonneg
  intro x hx
  obtain ⟨v, _, rfl⟩ := List.mem_map.mp hx
  exact Nat.cast_nonneg v

theorem sum_sq_nonneg (l : List ℕ) : 0 ≤ (l.map fun v : ℕ => (v : ℚ) ^ (2 : ℕ)).sum := by
  apply List.sum_nonneg
  intro x hx
  obtain ⟨v, _, rfl⟩ := List.mem_map.mp hx
  positivity

theorem trajTempCost_eq (eta : ℚ) (l : List ℕ) :
    trajTempCost eta l = eta * (l.map fun v : ℕ => (v : ℚ) ^ (2 : ℕ)).sum := by
  induction l with
  | nil => simp [trajTempCost]
  | cons a t ih =>
    unfold trajTempCost at ih ⊢
    rw [List.map_cons, List.sum_cons, List.map_cons, List.sum_cons, ih]
    by_cases ha : 0 < a
    · rw [if_pos ha]
      unfold tempImpact
      ring
    · have ha0 : a = 0 := Nat.eq_zero_of_not_pos ha
      rw [if_neg ha, ha0]
      push_cast
      ring

theorem sum_sq_le_sq_sum (l : List ℕ) :
    (l.map fun v : ℕ => (v : ℚ) ^ (2 : ℕ)).sum ≤ ((l.map fun v : ℕ => (v : ℚ)).sum) ^ (2 : ℕ) := by
  induction l with
  | nil => simp
  | cons a t ih =>
    rw [List.map_cons, List.sum_cons, List.map_cons, List.sum_cons]
    have h1 : (0 : ℚ) ≤ (a : ℚ) := Nat.cast_nonneg a
    have h2 := castSum_nonneg t
    nlinarith [ih]

theorem trajPermCost_le (gamma : ℚ) (hg : 0 ≤ gamma) (l : List ℕ) :
    0 ≤ trajPermCost gamma l ∧
    trajPermCost gamma l ≤ gamma * ((l.map fun v : ℕ => (v : ℚ)).sum) ^ (2 : ℕ) := by
  induction l with
  | nil =>
    constructor
    · simp [trajPermCost]
    · simp [trajPermCost]
  | cons a t ih =>
    obtain ⟨ih0, ih1⟩ := ih
    unfold trajPermCost permImpact
    rw [List.map_cons, List.sum_cons]
    have ha : (0 : ℚ) ≤ (a : ℚ) := Nat.cast_nonneg a
    have hS := castSum_nonneg t
    constructor
    · have : 0 ≤ ((a : ℚ) + (t.map fun v : ℕ => (v : ℚ)).sum) * (gamma * (a : ℚ) ^ (1 : ℕ)) := by
        positivity
      linarith
    · nlinarith [ih1, mul_nonneg (mul_nonneg hg ha) hS]

set_option maxHeartbeats 1000000 in
/-- C7 (amended): for fixed volatility and a fixed orderbook state whose mid
price is available and nonzero, the impact vanishes as `Q` tends to `0`: for
every `Q` in `[0, 100]` the DP path returns a value in `[0, Q/5000]` (so
`impact → 0` as `Q → 0⁺`, with `impact = 0` at `Q = 0`). Monotonicity in `Q`
does not hold in general (see the counterexample). -/
theorem claim_C7_impact_vanishes_near_zero (ob : OrderBook) (q vol m : ℚ)
    (hm : ob.getMidPrice = some m) (hmz : m ≠ 0) (hq0 : 0 ≤ q) (hq1 : q ≤ 100) :
    ∃ r, calculateImpact ob q vol = .ok r ∧ 0 ≤ r ∧ r ≤ q / 5000 := by
  obtain ⟨eta, gamma, hadj, he1, he2, hg1, hg2⟩ := adjustParams_ok ob q m hm hmz
  have heta0 : (0 : ℚ) ≤ eta := le_trans (by norm_num) he1
  have hgamma0 : (0 : ℚ) ≤ gamma := le_trans (by norm_num) hg1
  have hq10 : q / 10 ≤ 10 := by linarith
  have hnorm : min 1000 (max 10 (q / 10)) = (10 : ℚ) := by
    rw [max_eq_left hq10, min_eq_right (by norm_num)]
  have hN : ratFloorNat 10 = 10 := by decide
  unfold calculateImpact
  rw [hadj]
  simp only [bind_ok_eq]
  try dsimp only
  rw [hnorm, hN]
  have hsum : (dpTraj eta gamma (1 / 100) (vol / 100) 10 9 10).sum ≤ 10 :=
    dpTraj_sum_le eta gamma (1 / 100) (vol / 100) 10 9 10
  generalize htr : dpTraj eta gamma (1 / 100) (vol / 100) 10 9 10 = traj at hsum ⊢
  have hS0 : 0 ≤ (traj.map fun v : ℕ => (v : ℚ)).sum := castSum_nonneg traj
  have hS10 : (traj.map fun v : ℕ => (v : ℚ)).sum ≤ 10 := by
    rw [← Nat.cast_list_sum]
    exact_mod_cast hsum
  have htemp0 : 0 ≤ trajTempCost eta traj := by
    rw [trajTempCost_eq]
    exact mul_nonneg heta0 (sum_sq_nonneg traj)
  have htempB : trajTempCost eta traj ≤ 10 := by
    rw [trajTempCost_eq]
    nlinarith [sum_sq_le_sq_sum traj, sum_sq_nonneg traj]
  obtain ⟨hperm0, hpermB'⟩ := trajPermCost_le gamma hgamma0 traj
  have hpermB : trajPermCost gamma traj ≤ 10 := by nlinarith
  refine ⟨_, rfl, le_max_left _ _, ?_⟩
  apply max_le
  · positivity
  · refine le_trans (min_le_right _ _) ?_
    calc (trajTempCost eta traj + trajPermCost gamma traj) / 10 * (q / 10000)
        ≤ 20 / 10 * (q / 10000) := by
          apply mul_le_mul_of_nonneg_right _ (by positivity)
          linarith
      _ = q / 5000 := by ring

theorem claim_C7_witness :
    ((OrderBook.init "X" 100).update [(100, 80)] [(999/10, 5)] 1).getMidPrice
        = some (1999/20) ∧ ((1999:ℚ)/20) ≠ 0 ∧ (0 ≤ (50:ℚ)) ∧ ((50:ℚ) ≤ 100) ∧
    ∃ r, calculateImpact ((OrderBook.init "X" 100).update [(100, 80)] [(999/10, 5)] 1)
        50 5 = .ok r ∧ 0 ≤ r ∧ r ≤ 50 / 5000 :=
  ⟨by decide, by decide, by norm_num, by norm_num,
    claim_C7_impact_vanishes_near_zero _ 50 5 (1999/20) (by decide) (by decide)
      (by norm_num) (by norm_num)⟩

end TradeSim

